import Mathlib

/-!
Verification of the LuckyLines optimization core
(`src/app/optimization/optimizer.py` and `src/app/optimization/simulator.py`).

The CP-SAT solver is modelled nondeterministically: each iteration of the
solve loop consumes one `Resp` from an oracle list.  A `Resp.sat sel`
response stands for an OPTIMAL/FEASIBLE status whose solution selects
exactly the variables in `sel`; it is accepted only when it satisfies every
constraint currently in the model (any solution CP-SAT actually returns
does).  A `Resp.fail` response stands for any other status.  Randomness in
the simulator (`np.random.normal`) is likewise abstracted into an arbitrary
outcome matrix `outcomes : ℕ → ℕ → ℚ` (trial, player column) ↦ score.
Machine floats are modelled as rationals.
-/

deriving instance DecidableEq for Except

namespace LuckyLines

/-! ## Optimizer data model -/

/-- A player dict as consumed by `LineupOptimizer`:
`{'id', 'salary', 'points', 'position', 'team'}`. -/
structure Player where
  id : ℕ
  salary : ℤ
  points : ℚ
  position : String
  team : String
deriving DecidableEq, Repr

/-- The `rules` dict: `{'salary_cap', 'roster_size', 'positions'}`;
`positions` is an insertion-ordered association list (Python dict). -/
structure Rules where
  salary_cap : ℤ
  roster_size : ℕ
  positions : List (String × ℕ)
deriving DecidableEq, Repr

/-- Python `d.get(k, default)` on an association list. -/
def lookupD (l : List (String × ℕ)) (k : String) (d : ℕ) : ℕ :=
  match l.find? (fun e => e.1 == k) with
  | some e => e.2
  | none => d

/-- Keys of a Python dict built by repeated assignment: first-occurrence
order, duplicates collapsed (`self.player_vars[p['id']] = ...`);
`seen` accumulates the keys already emitted. -/
def firstKeysAux (seen : List ℕ) : List ℕ → List ℕ
  | [] => []
  | x :: xs =>
    if seen.contains x then firstKeysAux seen xs
    else x :: firstKeysAux (x :: seen) xs

/-- Keys of a Python dict built by repeated assignment, in insertion
order. -/
def firstKeys (l : List ℕ) : List ℕ := firstKeysAux [] l

/-- The variable ids, `list(self.player_vars.keys())` — one decision variable per distinct id. -/
def varIds (players : List Player) : List ℕ :=
  firstKeys (players.map (·.id))

/-- Linear constraints registered on the CP-SAT model. -/
inductive Con where
  /-- Constraint `sum(var * w) <= b` (salary cap). -/
  | wLe (terms : List (ℕ × ℤ)) (b : ℤ)
  /-- Constraint `sum(vars) == b`. -/
  | eqN (ids : List ℕ) (b : ℤ)
  /-- Constraint `sum(vars) >= b`. -/
  | geN (ids : List ℕ) (b : ℤ)
  /-- Constraint `sum(vars) <= b`. -/
  | leN (ids : List ℕ) (b : ℤ)
  /-- Reified constraint `model.Add(sum(partners) >= 1).OnlyEnforceIf(guard)`. -/
  | impliesGe1 (guard : ℕ) (ids : List ℕ)
  /-- Constraint `model.Add(var == 0)` (exposure ban). -/
  | fix0 (v : ℕ)
deriving DecidableEq, Repr

/-- Value of a boolean decision variable under the solution `sel`
(the set of selected ids). -/
def selVal (sel : List ℕ) (v : ℕ) : ℤ :=
  if sel.contains v then 1 else 0

/-- Value of `sum(vars)` under a solution; a duplicated entry is counted twice,
exactly as a variable appended twice to a CP-SAT sum would be. -/
def sumSel (sel : List ℕ) (ids : List ℕ) : ℤ :=
  (ids.map (selVal sel)).sum

/-- Does the solution `sel` satisfy one constraint? -/
def conSat (sel : List ℕ) : Con → Bool
  | .wLe terms b => decide ((terms.map (fun t => selVal sel t.1 * t.2)).sum ≤ b)
  | .eqN ids b => decide (sumSel sel ids = b)
  | .geN ids b => decide (b ≤ sumSel sel ids)
  | .leN ids b => decide (sumSel sel ids ≤ b)
  | .impliesGe1 g ids => !(sel.contains g) || decide (1 ≤ sumSel sel ids)
  | .fix0 v => !(sel.contains v)

/-- One entry of the position-constraint loop in `build_model`:
`FLEX` pins the RB/WR/TE pool to the sum of the individual requirements
plus the FLEX count (missing keys default to 0, `dict.get(pos, 0)`);
every other position gets `sum(pos_vars[pos]) >= count`. -/
def posCon (players : List Player) (rules : Rules) (e : String × ℕ) : Con :=
  if e.1 = "FLEX" then
    Con.eqN
      ((players.filter (fun p =>
        (["RB", "WR", "TE"] : List String).contains p.position)).map (·.id))
      ((lookupD rules.positions "RB" 0 + lookupD rules.positions "WR" 0 +
        lookupD rules.positions "TE" 0 + e.2 : ℕ) : ℤ)
  else
    Con.geN ((players.filter (fun p => p.position == e.1)).map (·.id)) (e.2 : ℤ)

/-- Eligible stacking partners of `p`: same team, a partner position,
a different id (`add_stacking_constraints`). -/
def poolPartners (players : List Player) (partner_positions : List String)
    (p : Player) : List Player :=
  players.filter (fun t =>
    t.team == p.team && partner_positions.contains t.position && t.id != p.id)

/-- Constraints contributed by one stacking entry `(primary_pos, partners)`:
for each primary-position player with a nonempty partner list, a reified
implication; primaries with no eligible partner get no constraint. -/
def stackConsFor (players : List Player) (e : String × List String) : List Con :=
  (players.filter (fun p => p.position == e.1)).filterMap (fun p =>
    let partners := (poolPartners players e.2 p).map (·.id)
    if partners = [] then none else some (Con.impliesGe1 p.id partners))

/-- Embedding of `add_stacking_constraints`. -/
def stackCons (players : List Player) (stacking : List (String × List String)) :
    List Con :=
  (stacking.map (stackConsFor players)).flatten

/-- Embedding of `build_model`: salary cap, roster size, position constraints, stacking
constraints (the objective does not constrain feasibility and is absorbed
into the solver oracle). -/
def buildModel (players : List Player) (rules : Rules)
    (stacking : List (String × List String)) : List Con :=
  Con.wLe ((varIds players).zip (players.map (·.salary))) rules.salary_cap
    :: Con.eqN (varIds players) (rules.roster_size : ℤ)
    :: (rules.positions.map (posCon players rules) ++ stackCons players stacking)

/-- Python `int()` applied to a rational: truncation toward zero. -/
def pyInt (q : ℚ) : ℤ :=
  if 0 ≤ q then ⌊q⌋ else ⌈q⌉

/-- The exposure pass at the top of each `solve` iteration.  For each
`(player_id, max_pct)`: `allowed = int(max_pct * num_lineups)`; if the
accumulated usage reaches it, `model.Add(player_vars[pid] == 0)` — a
`KeyError` (modelled as `.error ()`) when `pid` has no variable. -/
def exposureStep (num : ℕ) (usage : ℕ → ℕ) (vids : List ℕ) :
    List (ℕ × ℚ) → List Con → Except Unit (List Con)
  | [], cons => .ok cons
  | e :: rest, cons =>
    if pyInt (e.2 * (num : ℚ)) ≤ (usage e.1 : ℤ) then
      if vids.contains e.1 then
        exposureStep num usage vids rest (cons ++ [Con.fix0 e.1])
      else .error ()
    else exposureStep num usage vids rest cons

/-- The constraint added after each accepted solution: the selected
variables may sum to at most `roster_size - min_diversity` (or
`roster_size - 1` when `min_diversity == 0`). -/
def divCon (rs md : ℕ) (lu : List Player) : Con :=
  if 0 < md then Con.leN (lu.map (·.id)) ((rs : ℤ) - (md : ℤ))
  else Con.leN (lu.map (·.id)) ((rs : ℤ) - 1)

/-- Lineup extraction: pool rows whose variable is 1, in pool order. -/
def extract (players : List Player) (sel : List ℕ) : List Player :=
  players.filter (fun p => sel.contains p.id)

/-- Usage update `player_usage_counts[p['id']] += 1` for every extracted row. -/
def bumpUsage (lu : List Player) (usage : ℕ → ℕ) : ℕ → ℕ :=
  fun j => usage j + lu.countP (fun p => p.id == j)

/-- One solver response per loop iteration. -/
inductive Resp where
  /-- OPTIMAL or FEASIBLE, with the selected variable ids. -/
  | sat (sel : List ℕ)
  /-- Any other status (INFEASIBLE, UNKNOWN, ...). -/
  | fail
deriving DecidableEq, Repr

/-- The iterative solve loop.  A `sat` response not satisfying the current
model cannot arise from the real solver and is treated as a stop.  The
returned list is the tail of lineups produced from this point on. -/
def solveAux (players : List Player) (rs md : ℕ) (limits : List (ℕ × ℚ))
    (num : ℕ) :
    List Resp → List Con → (ℕ → ℕ) → Except Unit (List (List Player))
  | [], _, _ => .ok []
  | r :: rest, cons, usage =>
    match exposureStep num usage (varIds players) limits cons with
    | .error e => .error e
    | .ok cons1 =>
      match r with
      | .fail => .ok []
      | .sat sel =>
        if cons1.all (conSat sel) then
          let lu := extract players sel
          match solveAux players rs md limits num rest
              (cons1 ++ [divCon rs md lu]) (bumpUsage lu usage) with
          | .error e => .error e
          | .ok out => .ok (lu :: out)
        else .ok []

/-- Embedding of `LineupOptimizer.solve(num_lineups)`: build the model, then run the
loop; `oracle` fixes the solver's responses (one per iteration, so a real
call has `oracle.length = num`). -/
def solve (players : List Player) (rules : Rules)
    (stacking : List (String × List String)) (limits : List (ℕ × ℚ))
    (md num : ℕ) (oracle : List Resp) : Except Unit (List (List Player)) :=
  solveAux players rules.roster_size md limits num oracle
    (buildModel players rules stacking) (fun _ => 0)

/-! ## Simulator (src/app/optimization/simulator.py) -/

/-- A player dict as consumed by `Simulator`: `'id'`, `'points'` and an
optional `'std_dev'` (`p.get('std_dev', 5.0)`); only `id` matters once the
random draws are abstracted into the outcome matrix. -/
structure SimPlayer where
  id : ℕ
  points : ℚ
  std_dev : Option ℚ
deriving DecidableEq, Repr

/-- The simulator state set up by `Simulator.__init__` (which performs no
validation whatsoever; `num_iterations` is any Python int). -/
structure Simulator where
  players : List SimPlayer
  num_iterations : ℤ
deriving DecidableEq, Repr

/-- Constructor call `Simulator(players, num_iterations)`. -/
def simInit (players : List SimPlayer) (num_iterations : ℤ) : Simulator :=
  ⟨players, num_iterations⟩

/-- Lookup through `self.player_map = \x7bp['id']: i for i, p in enumerate(players)\x7d` then
`.get(id)`: the dict keeps the LAST index for a duplicated id and returns
`None` for ids absent from the pool. -/
def playerIndex (players : List SimPlayer) (pid : ℕ) : Option ℕ :=
  ((players.enum.filter (fun e => e.2.id == pid)).map (·.1)).getLast?

/-- The only run-time failures `run_simulation` can hit (both raised inside
numpy, neither is a descriptive input-contract error). -/
inductive SimErr where
  /-- Failure of `np.random.normal(size=(n, k))` on a negative dimension. -/
  | negativeDim
  /-- Failure of `np.percentile` over an empty data axis. -/
  | emptyPercentile
deriving DecidableEq, Repr

/-- Indexing used by the percentile kernel (`0` default is never reached on
the guarded, in-range calls). -/
def nth (l : List ℚ) (i : ℕ) : ℚ := l.getD i 0

/-- Linear interpolation between order statistics of the sorted sample at
virtual index `h`, exactly numpy's default `interpolation='linear'`. -/
def interpAt (s : List ℚ) (h : ℚ) : ℚ :=
  let k : ℕ := (⌊h⌋).toNat
  let g : ℚ := h - (k : ℚ)
  let lo := nth s k
  let hi := nth s (min (k + 1) (s.length - 1))
  lo + g * (hi - lo)

/-- Embedding of `np.percentile(xs, q)` for `0 ≤ q ≤ 100`: sort, then interpolate at
`q/100 * (len - 1)`. -/
def percentileLinear (xs : List ℚ) (q : ℚ) : ℚ :=
  interpAt (xs.insertionSort (· ≤ ·)) (q / 100 * ((xs.length : ℚ) - 1))

/-- Guarded percentile: `np.percentile` raises on an empty sample. -/
def npPercentile (xs : List ℚ) (q : ℚ) : Except SimErr ℚ :=
  if xs = [] then .error .emptyPercentile else .ok (percentileLinear xs q)

/-- Embedding of `np.mean` (the empty case is numpy NaN; it is modelled by the junk
value `0/0 = 0`, and never reaches a returned result because a percentile
error fires first on an empty score vector). -/
def qMean (xs : List ℚ) : ℚ := xs.sum / (xs.length : ℚ)

/-- Row `i` of `lineup_matrix`: `1` at every column some lineup member maps
to; members whose id is missing from `player_map` are silently skipped
(`if idx is not None`). -/
def lineupRow (players : List SimPlayer) (lu : List SimPlayer) (j : ℕ) : ℚ :=
  if lu.any (fun p => playerIndex players p.id == some j) then 1 else 0

/-- One entry of `lineup_matrix @ outcomes.T`: lineup `lu`'s score in
trial `t`. -/
def lineupScore (players : List SimPlayer) (outcomes : ℕ → ℕ → ℚ)
    (lu : List SimPlayer) (t : ℕ) : ℚ :=
  ((List.range players.length).map (fun j => lineupRow players lu j * outcomes t j)).sum

/-- The per-trial score vector of one lineup. -/
def lineupScores (players : List SimPlayer) (outcomes : ℕ → ℕ → ℚ)
    (iters : ℕ) (lu : List SimPlayer) : List ℚ :=
  (List.range iters).map (lineupScore players outcomes lu)

/-- One element of the result list of `run_simulation`. -/
structure SimResult where
  lineup_index : ℕ
  avg_score : ℚ
  ceiling : ℚ
  floor : ℚ
  win_prob : ℚ
deriving DecidableEq, Repr

/-- The body of the per-lineup loop: mean, 95th percentile, 5th percentile,
`np.mean(scores > 150)`, in source order (the mean itself never raises). -/
def lineupResult (players : List SimPlayer) (outcomes : ℕ → ℕ → ℚ)
    (iters : ℕ) (i : ℕ) (lu : List SimPlayer) : Except SimErr SimResult :=
  let scores := lineupScores players outcomes iters lu
  match npPercentile scores 95 with
  | .error e => .error e
  | .ok ceil =>
    match npPercentile scores 5 with
    | .error e => .error e
    | .ok flr =>
      .ok ⟨i, qMean scores, ceil, flr,
        qMean (scores.map (fun s => if 150 < s then (1 : ℚ) else 0))⟩

/-- The `for i, lineup in enumerate(lineups)` loop. -/
def runAll (players : List SimPlayer) (outcomes : ℕ → ℕ → ℚ) (iters : ℕ) :
    List (ℕ × List SimPlayer) → Except SimErr (List SimResult)
  | [] => .ok []
  | e :: rest =>
    match lineupResult players outcomes iters e.1 e.2 with
    | .error err => .error err
    | .ok r =>
      match runAll players outcomes iters rest with
      | .error err => .error err
      | .ok rs => .ok (r :: rs)

/-- Embedding of `Simulator.run_simulation(lineups)`.  Negative iteration counts abort
inside `np.random.normal`; the unused `cash_line_proxy`
(`np.percentile(lineup_scores, 50, axis=0)`) raises exactly when the
lineup axis is empty while the trial axis is not. -/
def runSimulation (sim : Simulator) (lineups : List (List SimPlayer))
    (outcomes : ℕ → ℕ → ℚ) : Except SimErr (List SimResult) :=
  if sim.num_iterations < 0 then .error .negativeDim
  else
    let iters := sim.num_iterations.toNat
    if lineups = [] ∧ 1 ≤ iters then .error .emptyPercentile
    else runAll sim.players outcomes iters lineups.enum

/-! ## Basic lemmas about the constraint semantics -/

theorem sumSel_eq_countP (sel ids : List ℕ) :
    sumSel sel ids = (ids.countP (fun i => sel.contains i) : ℤ) := by
  induction ids with
  | nil => simp [sumSel]
  | cons i ids ih =>
    simp only [sumSel, List.map_cons, List.sum_cons, List.countP_cons] at *
    by_cases h : sel.contains i = true <;> simp [selVal, h, ih] <;> omega

theorem mem_extract {players : List Player} {sel : List ℕ} {p : Player} :
    p ∈ extract players sel ↔ p ∈ players ∧ sel.contains p.id = true := by
  simp [extract, List.mem_filter]

theorem mem_firstKeysAux (x : ℕ) :
    ∀ (l : List ℕ) (seen : List ℕ),
    x ∈ firstKeysAux seen l ↔ x ∈ l ∧ x ∉ seen := by
  intro l
  induction l with
  | nil => intro seen; simp [firstKeysAux]
  | cons y ys ih =>
    intro seen
    rw [firstKeysAux]
    by_cases hy : seen.contains y = true
    · rw [if_pos hy, ih]
      have hymem : y ∈ seen := by simpa using hy
      constructor
      · exact fun ⟨h1, h2⟩ => ⟨List.mem_cons_of_mem _ h1, h2⟩
      · rintro ⟨h1, h2⟩
        rcases List.mem_cons.1 h1 with rfl | h1
        · exact absurd hymem h2
        · exact ⟨h1, h2⟩
    · rw [if_neg hy]
      have hynm : y ∉ seen := by simpa using hy
      constructor
      · intro hmem
        rcases List.mem_cons.1 hmem with rfl | hmem
        · exact ⟨List.mem_cons_self _ _, hynm⟩
        · obtain ⟨h1, h2⟩ := (ih (y :: seen)).1 hmem
          exact ⟨List.mem_cons_of_mem _ h1,
            fun hc => h2 (List.mem_cons_of_mem _ hc)⟩
      · rintro ⟨h1, h2⟩
        rcases List.mem_cons.1 h1 with rfl | h1
        · exact List.mem_cons_self _ _
        · by_cases hxy : x = y
          · exact hxy ▸ List.mem_cons_self _ _
          · exact List.mem_cons_of_mem _ ((ih (y :: seen)).2
              ⟨h1, by simp [hxy, h2]⟩)

theorem mem_firstKeys (l : List ℕ) (x : ℕ) : x ∈ firstKeys l ↔ x ∈ l := by
  rw [firstKeys, mem_firstKeysAux]
  simp

theorem firstKeysAux_eq_self :
    ∀ (l : List ℕ) (seen : List ℕ), l.Nodup → (∀ a ∈ l, a ∉ seen) →
    firstKeysAux seen l = l := by
  intro l
  induction l with
  | nil => intro seen _ _; rw [firstKeysAux]
  | cons y ys ih =>
    intro seen hnd hdisj
    rw [firstKeysAux, if_neg (by simpa using hdisj y (List.mem_cons_self _ _))]
    rw [ih (y :: seen) (List.nodup_cons.1 hnd).2]
    intro a ha
    simp only [List.mem_cons, not_or]
    exact ⟨fun he => (List.nodup_cons.1 hnd).1 (he ▸ ha),
      hdisj a (List.mem_cons_of_mem _ ha)⟩

theorem firstKeys_eq_self (l : List ℕ) (h : l.Nodup) : firstKeys l = l :=
  firstKeysAux_eq_self l [] h (by simp)

theorem mem_varIds {players : List Player} {x : ℕ} :
    x ∈ varIds players ↔ x ∈ players.map Player.id := by
  simp [varIds, mem_firstKeys]

/-! ## The solve loop only ever grows the constraint store -/

theorem exposureStep_sub {num : ℕ} {usage : ℕ → ℕ} {vids : List ℕ} :
    ∀ {limits : List (ℕ × ℚ)} {cons cons1 : List Con},
    exposureStep num usage vids limits cons = .ok cons1 → cons ⊆ cons1 := by
  intro limits
  induction limits with
  | nil =>
    intro cons cons1 h
    rw [exposureStep] at h
    cases h
    exact fun _ hx => hx
  | cons e rest ih =>
    intro cons cons1 h
    rw [exposureStep] at h
    split at h
    · split at h
      · exact (List.subset_append_left _ _).trans (ih h)
      · exact absurd h (by simp)
    · exact ih h

/-- Provenance of every returned lineup (it is the extraction of a solver
solution satisfying every constraint present at acceptance time, a
superset of the constraints present when the loop step started), together
with the pairwise fact that any later lineup's accepted solution also
satisfied the diversity constraint registered for any earlier lineup. -/
theorem solveAux_spec (players : List Player) (rs md : ℕ)
    (limits : List (ℕ × ℚ)) (num : ℕ) :
    ∀ (oracle : List Resp) (cons : List Con) (usage : ℕ → ℕ)
      (out : List (List Player)),
    solveAux players rs md limits num oracle cons usage = .ok out →
    (∀ lu ∈ out, ∃ (sel : List ℕ) (cons' : List Con), cons ⊆ cons' ∧
        cons'.all (conSat sel) = true ∧ lu = extract players sel) ∧
    out.Pairwise (fun lu1 lu2 => ∃ (sel : List ℕ) (cons' : List Con),
        divCon rs md lu1 ∈ cons' ∧ cons'.all (conSat sel) = true ∧
        lu2 = extract players sel) := by
  intro oracle
  induction oracle with
  | nil =>
    intro cons usage out h
    rw [solveAux] at h
    cases h
    exact ⟨by simp, List.Pairwise.nil⟩
  | cons r rest ih =>
    intro cons usage out h
    cases r with
    | fail =>
      rw [solveAux] at h
      split at h
      · exact absurd h (by simp)
      · cases h
        exact ⟨by simp, List.Pairwise.nil⟩
    | sat sel =>
      simp only [solveAux] at h
      split at h
      · exact absurd h (by simp)
      · rename_i cons1 hex
        by_cases hall : cons1.all (conSat sel) = true
        · rw [if_pos hall] at h
          split at h
          · exact absurd h (by simp)
          · rename_i out' hrec
            cases h
            obtain ⟨ihmem, ihpw⟩ := ih _ _ _ hrec
            have hsub1 : cons ⊆ cons1 := exposureStep_sub hex
            have hsub2 : cons1 ⊆ cons1 ++ [divCon rs md (extract players sel)] :=
              List.subset_append_left _ _
            refine ⟨?_, ?_⟩
            · intro lu hlu
              rcases List.mem_cons.1 hlu with hhd | htl
              · exact ⟨sel, cons1, hsub1, hall, hhd⟩
              · obtain ⟨s, c, hc, ha, he⟩ := ihmem lu htl
                exact ⟨s, c, hsub1.trans (hsub2.trans hc), ha, he⟩
            · refine List.Pairwise.cons ?_ ihpw
              intro lu2 hlu2
              obtain ⟨s, c, hc, ha, he⟩ := ihmem lu2 hlu2
              exact ⟨s, c, hc (by simp), ha, he⟩
        · rw [if_neg hall] at h
          cases h
          exact ⟨by simp, List.Pairwise.nil⟩

/-! ## Claim C9: FLEX eligibility is hard-coded to RB/WR/TE -/

/-- The FLEX-eligible variable list of `build_model`:
`p['position'] in ['RB', 'WR', 'TE']`. -/
def flexIds (players : List Player) : List ℕ :=
  (players.filter (fun p =>
    (["RB", "WR", "TE"] : List String).contains p.position)).map (·.id)

/-- The pinned FLEX pool total of `build_model`. -/
def flexTotal (rules : Rules) (c : ℕ) : ℕ :=
  lookupD rules.positions "RB" 0 + lookupD rules.positions "WR" 0 +
    lookupD rules.positions "TE" 0 + c

theorem posCon_flex (players : List Player) (rules : Rules) (c : ℕ) :
    posCon players rules ("FLEX", c) =
      Con.eqN (flexIds players) ((flexTotal rules c : ℕ) : ℤ) := by
  rw [posCon]
  rfl

/-- Claim C9: for every player pool and every rules configuration whose
`positions` dict contains a FLEX requirement `c`, `build_model` registers
the hard-coded constraint that the selected players at positions RB, WR or
TE number exactly `positions.get('RB', 0) + positions.get('WR', 0) +
positions.get('TE', 0) + c`; hence every solver solution satisfying the
model selects exactly that many RB/WR/TE players — no other configured set
of FLEX-eligible positions can take effect. -/
theorem flex_hardcoded (players : List Player) (rules : Rules)
    (stacking : List (String × List String)) (c : ℕ)
    (hflex : ("FLEX", c) ∈ rules.positions) :
    Con.eqN (flexIds players) ((flexTotal rules c : ℕ) : ℤ)
        ∈ buildModel players rules stacking ∧
    ∀ sel : List ℕ, (buildModel players rules stacking).all (conSat sel) = true →
      sumSel sel (flexIds players) = ((flexTotal rules c : ℕ) : ℤ) := by
  have hmem : Con.eqN (flexIds players) ((flexTotal rules c : ℕ) : ℤ)
      ∈ buildModel players rules stacking := by
    rw [buildModel]
    refine List.mem_cons_of_mem _ (List.mem_cons_of_mem _ (List.mem_append_left _ ?_))
    rw [← posCon_flex players rules c]
    exact List.mem_map_of_mem _ hflex
  refine ⟨hmem, fun sel hall => ?_⟩
  have := List.all_eq_true.1 hall _ hmem
  simpa [conSat] using this

/-- A five-man pool exercising the FLEX rules (two RBs, one of them the
FLEX filler). -/
def poolF : List Player :=
  [⟨1, 1, 1, "QB", "A"⟩, ⟨2, 1, 1, "RB", "A"⟩, ⟨3, 1, 1, "WR", "A"⟩,
   ⟨4, 1, 1, "TE", "A"⟩, ⟨5, 1, 1, "RB", "B"⟩]

/-- DraftKings-style rules with a FLEX slot. -/
def flexRules : Rules :=
  ⟨50000, 5, [("QB", 1), ("RB", 1), ("WR", 1), ("TE", 1), ("FLEX", 1)]⟩

/-- Witness for C9 at a concrete pool and ruleset. -/
theorem flex_hardcoded_witness :
    Con.eqN (flexIds poolF) ((flexTotal flexRules 1 : ℕ) : ℤ)
        ∈ buildModel poolF flexRules [] ∧
    sumSel [1, 2, 3, 4, 5] (flexIds poolF) = ((flexTotal flexRules 1 : ℕ) : ℤ) := by
  obtain ⟨h1, h2⟩ := flex_hardcoded poolF flexRules [] 1 (by decide)
  exact ⟨h1, h2 [1, 2, 3, 4, 5] (by decide)⟩

/-! ## Claim C2: the stacking invariant -/

/-- A primary-position player on a team with no pool partner. -/
def qb1 : Player := ⟨1, 5000, 10, "QB", "A"⟩

/-- The only other player, on a different team. -/
def wr2 : Player := ⟨2, 5000, 9, "WR", "B"⟩

/-- Rules for the two-man counterexample pool. -/
def rulesX : Rules := ⟨50000, 2, [("QB", 1), ("WR", 1)]⟩

/-- Claim C2 is false as stated: with stacking rule `QB → [WR, TE]`, the
pool `[qb1, wr2]` gives the QB no eligible partner, so
`add_stacking_constraints` emits no constraint for him, and the (unique,
hence optimal) solution selecting both players is returned even though the
selected QB has no same-team partner in the lineup. -/
theorem stacking_counterexample :
    solve [qb1, wr2] rulesX [("QB", ["WR", "TE"])] [] 0 1 [Resp.sat [1, 2]] =
      .ok [[qb1, wr2]] ∧
    ¬ (∀ lu ∈ [[qb1, wr2]], ∀ pr ∈ [("QB", (["WR", "TE"] : List String))],
        ∀ p ∈ lu, p.position = pr.1 →
          ∃ t ∈ lu, t.team = p.team ∧ t.position ∈ pr.2 ∧ t.id ≠ p.id) := by
  constructor
  · decide
  · decide

/-- Claim C2 amended: in every batch returned by `solve` with a stacking
rule configured, every selected player at a primary position **that has at
least one candidate partner in the pool** (same team, partner position,
different id) has at least one such partner selected in the same lineup;
primaries with no pool candidate are unconstrained. -/
theorem stacking_amended (players : List Player) (rules : Rules)
    (stacking : List (String × List String)) (limits : List (ℕ × ℚ))
    (md num : ℕ) (oracle : List Resp) (out : List (List Player))
    (h : solve players rules stacking limits md num oracle = .ok out) :
    ∀ lu ∈ out, ∀ pr ∈ stacking, ∀ p ∈ lu, p.position = pr.1 →
      poolPartners players pr.2 p ≠ [] →
      ∃ t ∈ lu, t.team = p.team ∧ t.position ∈ pr.2 ∧ t.id ≠ p.id := by
  intro lu hlu pr hpr p hp hpos hpart
  obtain ⟨hmem, _⟩ := solveAux_spec players rules.roster_size md limits num
    oracle _ _ out h
  obtain ⟨sel, cons', hsub, hall, hext⟩ := hmem lu hlu
  subst hext
  obtain ⟨hpp, hpsel⟩ := mem_extract.1 hp
  -- the reified stacking constraint for p is in the built model
  have hcon : Con.impliesGe1 p.id ((poolPartners players pr.2 p).map (·.id)) ∈
      buildModel players rules stacking := by
    rw [buildModel]
    refine List.mem_cons_of_mem _ (List.mem_cons_of_mem _
      (List.mem_append_right _ ?_))
    rw [stackCons]
    refine List.mem_flatten.2 ⟨stackConsFor players pr, List.mem_map_of_mem _ hpr, ?_⟩
    rw [stackConsFor]
    refine List.mem_filterMap.2 ⟨p, ?_, ?_⟩
    · exact List.mem_filter.2 ⟨hpp, by simp [hpos]⟩
    · simp only
      rw [if_neg (by simpa using hpart)]
  have hsat := List.all_eq_true.1 hall _ (hsub hcon)
  rw [conSat] at hsat
  rw [hpsel] at hsat
  simp only [Bool.not_true, Bool.false_or, decide_eq_true_eq] at hsat
  -- some partner variable is selected
  rw [sumSel_eq_countP] at hsat
  have hpos' : 0 < ((poolPartners players pr.2 p).map (·.id)).countP
      (fun i => sel.contains i) := by exact_mod_cast hsat
  obtain ⟨i, hi, hisel⟩ := List.countP_pos_iff.1 hpos'
  obtain ⟨t, ht, rfl⟩ := List.mem_map.1 hi
  obtain ⟨htp, htcond⟩ := List.mem_filter.1 ht
  simp only [Bool.and_eq_true, beq_iff_eq, bne_iff_ne, ne_eq] at htcond
  refine ⟨t, mem_extract.2 ⟨htp, hisel⟩, htcond.1.1, ?_, htcond.2⟩
  simpa using htcond.1.2

/-- Pool for the C2 witness: the QB does have a same-team WR partner. -/
def qb1A : Player := ⟨1, 5000, 10, "QB", "A"⟩

/-- The QB's same-team stacking partner. -/
def wr2A : Player := ⟨2, 5000, 9, "WR", "A"⟩

/-- Witness for the amended C2 at a concrete run. -/
theorem stacking_amended_witness :
    ∃ t ∈ [qb1A, wr2A], t.team = qb1A.team ∧
      t.position ∈ (["WR", "TE"] : List String) ∧ t.id ≠ qb1A.id := by
  refine stacking_amended [qb1A, wr2A] rulesX [("QB", ["WR", "TE"])] [] 0 1
    [Resp.sat [1, 2]] [[qb1A, wr2A]] (by decide) [qb1A, wr2A] (by decide)
    ("QB", ["WR", "TE"]) (by decide) qb1A (by decide) (by decide) (by decide)

/-! ## Claim C4: the diversity invariant -/

/-- Number of players two lineups share. -/
def sharedCount (l1 l2 : List Player) : ℕ :=
  l1.countP (fun p => decide (p ∈ l2))

theorem countP_eq_of_mem {α : Type} {l : List α} {p q : α → Bool}
    (h : ∀ a ∈ l, p a = q a) : l.countP p = l.countP q := by
  induction l with
  | nil => rfl
  | cons a as ih =>
    simp only [List.countP_cons, h a (List.mem_cons_self a as),
      ih (fun b hb => h b (List.mem_cons_of_mem a hb))]

/-- Shared players between an arbitrary sub-pool lineup and an extracted
lineup, counted through the extracted solution's variables. -/
theorem sharedCount_extract {players : List Player} {sel2 : List ℕ}
    {l1 : List Player} (hsub : ∀ p ∈ l1, p ∈ players) :
    (sharedCount l1 (extract players sel2) : ℤ) = sumSel sel2 (l1.map (·.id)) := by
  rw [sumSel_eq_countP, List.countP_map, sharedCount]
  congr 1
  apply countP_eq_of_mem
  intro p hp
  by_cases hc : sel2.contains p.id = true
  · have hmem : p ∈ extract players sel2 := mem_extract.2 ⟨hsub p hp, hc⟩
    simp only [Function.comp_apply, hc]
    exact decide_eq_true hmem
  · have hnm : p ∉ extract players sel2 := fun hm => hc (mem_extract.1 hm).2
    have hcf : sel2.contains p.id = false := by
      simpa using hc
    simp only [Function.comp_apply, hcf]
    exact decide_eq_false hnm

theorem conSat_divCon {sel : List ℕ} {rs md : ℕ} {lu : List Player}
    (h : conSat sel (divCon rs md lu) = true) :
    sumSel sel (lu.map (·.id)) ≤ (rs : ℤ) - ((max 1 md : ℕ) : ℤ) := by
  rw [divCon] at h
  by_cases hmd : 0 < md
  · rw [if_pos hmd, conSat] at h
    have h' := of_decide_eq_true h
    have hmax : max 1 md = md := Nat.max_eq_right hmd
    rw [hmax]
    exact h'
  · rw [if_neg hmd, conSat] at h
    have h' := of_decide_eq_true h
    have hmd0 : md = 0 := by omega
    subst hmd0
    simpa using h'

theorem roster_mem_buildModel (players : List Player) (rules : Rules)
    (stacking : List (String × List String)) :
    Con.eqN (varIds players) ((rules.roster_size : ℕ) : ℤ) ∈
      buildModel players rules stacking := by
  rw [buildModel]
  exact List.mem_cons_of_mem _ (List.mem_cons_self _ _)

theorem length_extract_of_roster {players : List Player} {sel : List ℕ}
    {rs : ℕ} (hnd : (players.map Player.id).Nodup)
    (hsat : conSat sel (Con.eqN (varIds players) ((rs : ℕ) : ℤ)) = true) :
    (extract players sel).length = rs := by
  rw [conSat] at hsat
  have heq := of_decide_eq_true hsat
  rw [varIds, firstKeys_eq_self _ hnd, sumSel_eq_countP] at heq
  have hcount : (players.map Player.id).countP (fun i => sel.contains i) = rs := by
    exact_mod_cast heq
  rw [List.countP_map] at hcount
  rw [extract, ← List.countP_eq_length_filter]
  exact hcount

/-- Claim C4: in every batch returned by `solve`, any two distinct lineups
have exactly `roster_size` players each, share at most
`roster_size - max(1, min_diversity)` players (hence differ in at least
`min_diversity` roster slots), and are never exact duplicates — enforced
by the post-solution constraint `sum(selected_vars) <= roster_size -
min_diversity` (or `- 1` when `min_diversity == 0`). -/
theorem diversity_invariant (players : List Player) (rules : Rules)
    (stacking : List (String × List String)) (limits : List (ℕ × ℚ))
    (md num : ℕ) (oracle : List Resp) (out : List (List Player))
    (hnd : (players.map Player.id).Nodup)
    (h : solve players rules stacking limits md num oracle = .ok out)
    (i j : ℕ) (hij : i < j) (hj : j < out.length) :
    (out.get ⟨i, Nat.lt_trans hij hj⟩).length = rules.roster_size ∧
    (out.get ⟨j, hj⟩).length = rules.roster_size ∧
    (sharedCount (out.get ⟨i, Nat.lt_trans hij hj⟩) (out.get ⟨j, hj⟩) : ℤ) ≤
      (rules.roster_size : ℤ) - ((max 1 md : ℕ) : ℤ) ∧
    (md : ℤ) ≤ (rules.roster_size : ℤ) -
      (sharedCount (out.get ⟨i, Nat.lt_trans hij hj⟩) (out.get ⟨j, hj⟩) : ℤ) ∧
    out.get ⟨i, Nat.lt_trans hij hj⟩ ≠ out.get ⟨j, hj⟩ := by
  obtain ⟨hmem, hpw⟩ := solveAux_spec players rules.roster_size md limits num
    oracle _ _ out h
  have hi' : i < out.length := Nat.lt_trans hij hj
  -- lengths, via the roster-size constraint of the built model
  have hlen : ∀ lu ∈ out, lu.length = rules.roster_size := by
    intro lu hlu
    obtain ⟨sel, cons', hsub, hall, hext⟩ := hmem lu hlu
    subst hext
    exact length_extract_of_roster hnd
      (List.all_eq_true.1 hall _ (hsub (roster_mem_buildModel players rules stacking)))
  have hlen_i : (out.get ⟨i, hi'⟩).length = rules.roster_size :=
    hlen _ (out.get_mem _ _)
  have hlen_j : (out.get ⟨j, hj⟩).length = rules.roster_size :=
    hlen _ (out.get_mem _ _)
  -- the diversity bound, via the pairwise constraint
  obtain ⟨selj, consj, hdivmem, hallj, hextj⟩ :=
    List.pairwise_iff_get.1 hpw ⟨i, hi'⟩ ⟨j, hj⟩ hij
  have hdiv := conSat_divCon (List.all_eq_true.1 hallj _ hdivmem)
  have hsub_i : ∀ p ∈ out.get ⟨i, hi'⟩, p ∈ players := by
    intro p hp
    obtain ⟨sel', c', _, _, hext'⟩ := hmem _ (out.get_mem _ _)
    exact (mem_extract.1 (hext' ▸ hp)).1
  have hshared : (sharedCount (out.get ⟨i, hi'⟩) (out.get ⟨j, hj⟩) : ℤ) =
      sumSel selj ((out.get ⟨i, hi'⟩).map (·.id)) := by
    rw [hextj]
    exact sharedCount_extract hsub_i
  have hbound : (sharedCount (out.get ⟨i, hi'⟩) (out.get ⟨j, hj⟩) : ℤ) ≤
      (rules.roster_size : ℤ) - ((max 1 md : ℕ) : ℤ) := by
    rw [hshared]; exact hdiv
  refine ⟨hlen_i, hlen_j, hbound, ?_, ?_⟩
  · have hmax : (md : ℤ) ≤ ((max 1 md : ℕ) : ℤ) := by
      exact_mod_cast Nat.le_max_right 1 md
    omega
  · intro heq
    have hall_mem : sharedCount (out.get ⟨i, hi'⟩) (out.get ⟨j, hj⟩) =
        (out.get ⟨i, hi'⟩).length := by
      rw [sharedCount, List.countP_eq_length]
      intro p hp
      rw [← heq]
      exact decide_eq_true hp
    rw [hall_mem, hlen_i] at hbound
    have hmax1 : (1 : ℤ) ≤ ((max 1 md : ℕ) : ℤ) := by
      exact_mod_cast Nat.le_max_left 1 md
    omega

/-- First player of the two-man exposure/diversity pool. -/
def pA : Player := ⟨1, 100, 10, "QB", "A"⟩

/-- Second player of the two-man exposure/diversity pool. -/
def pB : Player := ⟨2, 100, 9, "QB", "B"⟩

/-- One-slot rules for the two-man pool. -/
def rulesAB : Rules := ⟨50000, 1, [("QB", 1)]⟩

/-- Witness for C4 at a concrete two-lineup batch. -/
theorem diversity_invariant_witness :
    (([[pA], [pB]] : List (List Player)).get ⟨0, by decide⟩).length =
      rulesAB.roster_size ∧
    (([[pA], [pB]] : List (List Player)).get ⟨1, by decide⟩).length =
      rulesAB.roster_size ∧
    (sharedCount (([[pA], [pB]] : List (List Player)).get ⟨0, by decide⟩)
        (([[pA], [pB]] : List (List Player)).get ⟨1, by decide⟩) : ℤ) ≤
      (rulesAB.roster_size : ℤ) - ((max 1 0 : ℕ) : ℤ) ∧
    ((0 : ℕ) : ℤ) ≤ (rulesAB.roster_size : ℤ) -
      (sharedCount (([[pA], [pB]] : List (List Player)).get ⟨0, by decide⟩)
        (([[pA], [pB]] : List (List Player)).get ⟨1, by decide⟩) : ℤ) ∧
    ([[pA], [pB]] : List (List Player)).get ⟨0, by decide⟩ ≠
      ([[pA], [pB]] : List (List Player)).get ⟨1, by decide⟩ :=
  diversity_invariant [pA, pB] rulesAB [] [] 0 2 [Resp.sat [1], Resp.sat [2]]
    [[pA], [pB]] (by decide) (by decide) 0 1 (by decide) (by decide)

/-! ## Claim C3: the exposure invariant -/

/-- Number of lineups of a batch containing the player id `pid`. -/
def occCount (pid : ℕ) (out : List (List Player)) : ℕ :=
  out.countP (fun lu => lu.any (fun p => p.id == pid))

theorem occCount_cons (pid : ℕ) (lu : List Player) (out : List (List Player)) :
    occCount pid (lu :: out) =
      occCount pid out + (if lu.any (fun p => p.id == pid) then 1 else 0) := by
  simp [occCount, List.countP_cons]

/-- Once triggered for a limited player, the exposure pass puts (or keeps)
that player's ban in the model it returns. -/
theorem exposure_ban {num : ℕ} {usage : ℕ → ℕ} {vids : List ℕ} {pid : ℕ}
    {frac : ℚ} :
    ∀ {limits : List (ℕ × ℚ)} {cons cons1 : List Con},
    (pid, frac) ∈ limits →
    pyInt (frac * (num : ℚ)) ≤ (usage pid : ℤ) →
    exposureStep num usage vids limits cons = .ok cons1 →
    Con.fix0 pid ∈ cons1 := by
  intro limits
  induction limits with
  | nil => intro cons cons1 hmem _ _; exact absurd hmem (by simp)
  | cons e rest ih =>
    intro cons cons1 hmem htrig hstep
    rw [exposureStep] at hstep
    rcases List.mem_cons.1 hmem with heq | hrest
    · subst heq
      rw [if_pos htrig] at hstep
      split at hstep
      · exact exposureStep_sub hstep (by simp)
      · exact absurd hstep (by simp)
    · split at hstep
      · split at hstep
        · exact ih hrest htrig hstep
        · exact absurd hstep (by simp)
      · exact ih hrest htrig hstep

theorem conSat_fix0 {sel : List ℕ} {pid : ℕ}
    (h : conSat sel (Con.fix0 pid) = true) : sel.contains pid = false := by
  rw [conSat] at h
  simpa using h

theorem extract_not_sel {players : List Player} {sel : List ℕ} {pid : ℕ}
    (hc : sel.contains pid = false) :
    (extract players sel).any (fun p => p.id == pid) = false := by
  rw [List.any_eq_false]
  intro p hp
  obtain ⟨_, hpsel⟩ := mem_extract.1 hp
  intro hbeq
  rw [beq_iff_eq.1 hbeq] at hpsel
  rw [hc] at hpsel
  cases hpsel

theorem countP_extract_le_one (players : List Player) (sel : List ℕ)
    (pid : ℕ) (hnd : (players.map Player.id).Nodup) :
    (extract players sel).countP (fun p => p.id == pid) ≤ 1 := by
  have h1 : (extract players sel).countP (fun p => p.id == pid) ≤
      players.countP (fun p => p.id == pid) :=
    (List.filter_sublist players).countP_le _
  have h2 : players.countP (fun p => p.id == pid) =
      (players.map Player.id).count pid := by
    rw [List.count, List.countP_map]
    rfl
  have h3 : (players.map Player.id).count pid ≤ 1 :=
    List.nodup_iff_count_le_one.1 hnd pid
  omega

theorem any_le_countP (lu : List Player) (pid : ℕ) :
    (if lu.any (fun p => p.id == pid) then (1 : ℕ) else 0) ≤
      lu.countP (fun p => p.id == pid) := by
  by_cases hany : lu.any (fun p => p.id == pid) = true
  · rw [if_pos hany]
    obtain ⟨p, hp, hpid⟩ := List.any_eq_true.1 hany
    exact List.countP_pos_iff.2 ⟨p, hp, hpid⟩
  · rw [if_neg hany]
    exact Nat.zero_le _

/-- Accumulated-usage bound through the remainder of the batch. -/
theorem expo_bound_aux (players : List Player) (rs md : ℕ)
    (limits : List (ℕ × ℚ)) (num : ℕ) (pid : ℕ) (frac : ℚ)
    (hmem : (pid, frac) ∈ limits)
    (hnd : (players.map Player.id).Nodup) :
    ∀ (oracle : List Resp) (cons : List Con) (usage : ℕ → ℕ)
      (out : List (List Player)),
    solveAux players rs md limits num oracle cons usage = .ok out →
    (usage pid : ℤ) ≤ pyInt (frac * (num : ℚ)) →
    (usage pid : ℤ) + (occCount pid out : ℤ) ≤ pyInt (frac * (num : ℚ)) := by
  intro oracle
  induction oracle with
  | nil =>
    intro cons usage out h hle
    rw [solveAux] at h
    cases h
    simpa [occCount] using hle
  | cons r rest ih =>
    intro cons usage out h hle
    cases r with
    | fail =>
      rw [solveAux] at h
      split at h
      · exact absurd h (by simp)
      · cases h
        simpa [occCount] using hle
    | sat sel =>
      simp only [solveAux] at h
      split at h
      · exact absurd h (by simp)
      · rename_i cons1 hex
        by_cases hall : cons1.all (conSat sel) = true
        · rw [if_pos hall] at h
          split at h
          · exact absurd h (by simp)
          · rename_i out' hrec
            cases h
            have hcnt_le := countP_extract_le_one players sel pid hnd
            have hbump : (bumpUsage (extract players sel) usage) pid =
                usage pid + (extract players sel).countP (fun p => p.id == pid) :=
              rfl
            by_cases htrig : pyInt (frac * (num : ℚ)) ≤ (usage pid : ℤ)
            · -- the ban is active: the new lineup cannot contain pid
              have hban := exposure_ban hmem htrig hex
              have hsel : sel.contains pid = false :=
                conSat_fix0 (List.all_eq_true.1 hall _ hban)
              have hany : (extract players sel).any (fun p => p.id == pid) = false :=
                extract_not_sel hsel
              have hcnt0 : (extract players sel).countP (fun p => p.id == pid) = 0 := by
                rw [List.countP_eq_zero]
                intro p hp
                exact (List.any_eq_false.1 hany) p hp
              have hle' : ((bumpUsage (extract players sel) usage) pid : ℤ) ≤
                  pyInt (frac * (num : ℚ)) := by
                rw [hbump, hcnt0]
                simpa using hle
              have hih := ih _ _ _ hrec hle'
              rw [hbump, hcnt0] at hih
              rw [occCount, List.countP_cons]
              simp only [hany, if_false]
              rw [occCount] at hih
              push_cast at hih ⊢
              omega
            · -- not yet at the cap: usage grows by at most one
              have hlt : (usage pid : ℤ) < pyInt (frac * (num : ℚ)) := lt_of_not_le htrig
              have hle' : ((bumpUsage (extract players sel) usage) pid : ℤ) ≤
                  pyInt (frac * (num : ℚ)) := by
                rw [hbump]
                push_cast
                omega
              have hih := ih _ _ _ hrec hle'
              rw [hbump] at hih
              have hind := any_le_countP (extract players sel) pid
              rw [occCount, List.countP_cons]
              rw [occCount] at hih
              by_cases hany : (extract players sel).any (fun p => p.id == pid) = true
              · rw [if_pos hany] at hind ⊢
                push_cast at hih ⊢
                omega
              · rw [if_neg hany] at hind ⊢
                push_cast at hih ⊢
                omega
        · rw [if_neg hall] at h
          cases h
          simpa [occCount] using hle

/-- Once the accumulated usage has reached the cap, every remaining lineup
of the batch excludes the limited player. -/
theorem expo_trigger_aux (players : List Player) (rs md : ℕ)
    (limits : List (ℕ × ℚ)) (num : ℕ) (pid : ℕ) (frac : ℚ)
    (hmem : (pid, frac) ∈ limits) :
    ∀ (oracle : List Resp) (cons : List Con) (usage : ℕ → ℕ)
      (out : List (List Player)),
    solveAux players rs md limits num oracle cons usage = .ok out →
    ∀ j (hj : j < out.length),
      pyInt (frac * (num : ℚ)) ≤ (usage pid : ℤ) + (occCount pid (out.take j) : ℤ) →
      (out.get ⟨j, hj⟩).any (fun p => p.id == pid) = false := by
  intro oracle
  induction oracle with
  | nil =>
    intro cons usage out h j hj _
    rw [solveAux] at h
    cases h
    exact absurd hj (by simp)
  | cons r rest ih =>
    intro cons usage out h j hj hge
    cases r with
    | fail =>
      rw [solveAux] at h
      split at h
      · exact absurd h (by simp)
      · cases h
        exact absurd hj (by simp)
    | sat sel =>
      simp only [solveAux] at h
      split at h
      · exact absurd h (by simp)
      · rename_i cons1 hex
        by_cases hall : cons1.all (conSat sel) = true
        · rw [if_pos hall] at h
          split at h
          · exact absurd h (by simp)
          · rename_i out' hrec
            cases h
            match j with
            | 0 =>
              simp only [List.take_zero, occCount, List.countP_nil,
                Nat.cast_zero, add_zero] at hge
              have hban := exposure_ban hmem hge hex
              have hsel : sel.contains pid = false :=
                conSat_fix0 (List.all_eq_true.1 hall _ hban)
              exact extract_not_sel hsel
            | jj + 1 =>
              have hj' : jj < out'.length := by
                simpa using hj
              have hbump : (bumpUsage (extract players sel) usage) pid =
                  usage pid + (extract players sel).countP (fun p => p.id == pid) :=
                rfl
              have hind := any_le_countP (extract players sel) pid
              have hge' : pyInt (frac * (num : ℚ)) ≤
                  ((bumpUsage (extract players sel) usage) pid : ℤ) +
                    (occCount pid (out'.take jj) : ℤ) := by
                rw [List.take_succ_cons, occCount_cons] at hge
                rw [hbump]
                by_cases hany : (extract players sel).any (fun p => p.id == pid) = true
                · rw [if_pos hany] at hge
                  rw [if_pos hany] at hind
                  push_cast at hge ⊢
                  omega
                · rw [if_neg hany] at hge
                  push_cast at hge ⊢
                  omega
              exact ih _ _ _ hrec jj hj' hge'
        · rw [if_neg hall] at h
          cases h
          exact absurd hj (by simp)

/-- Claim C3: in every batch produced by `solve`, a player with configured
exposure limit `frac` appears in at most `floor(frac * num)` lineups,
where `num` is the *requested* batch size; and from the first iteration
whose accumulated prior usage reaches `floor(frac * num)` onwards (the
iteration at which the player's variable is forced to 0), every remaining
lineup of the batch excludes the player. -/
theorem exposure_invariant (players : List Player) (rules : Rules)
    (stacking : List (String × List String)) (limits : List (ℕ × ℚ))
    (md num : ℕ) (oracle : List Resp) (out : List (List Player))
    (pid : ℕ) (frac : ℚ) (hmem : (pid, frac) ∈ limits) (hfrac : 0 ≤ frac)
    (hnd : (players.map Player.id).Nodup)
    (h : solve players rules stacking limits md num oracle = .ok out) :
    (occCount pid out : ℤ) ≤ ⌊frac * (num : ℚ)⌋ ∧
    ∀ j (hj : j < out.length),
      ⌊frac * (num : ℚ)⌋ ≤ (occCount pid (out.take j) : ℤ) →
      (out.get ⟨j, hj⟩).any (fun p => p.id == pid) = false := by
  have hmul : (0 : ℚ) ≤ frac * (num : ℚ) :=
    mul_nonneg hfrac (Nat.cast_nonneg num)
  have hpy : pyInt (frac * (num : ℚ)) = ⌊frac * (num : ℚ)⌋ := by
    rw [pyInt, if_pos hmul]
  have h0 : (((fun _ => 0) : ℕ → ℕ) pid : ℤ) ≤ pyInt (frac * (num : ℚ)) := by
    rw [hpy]
    simpa using Int.le_floor.2 (by simpa using hmul)
  constructor
  · have hb := expo_bound_aux players rules.roster_size md limits num pid frac
      hmem hnd oracle _ _ out h h0
    rw [hpy] at hb
    simpa using hb
  · intro j hj hge
    refine expo_trigger_aux players rules.roster_size md limits num pid frac
      hmem oracle _ _ out h j hj ?_
    rw [hpy]
    simpa using hge

theorem pyInt_half_two : pyInt ((1 : ℚ) / 2 * ((2 : ℕ) : ℚ)) = 1 := by
  rw [pyInt, if_pos (by norm_num)]
  norm_num

/-- The concrete exposure-limited run used by the C3 witness. -/
theorem solveC3run :
    solve [pA, pB] rulesAB [] [(1, (1 : ℚ) / 2)] 0 2
      [Resp.sat [1], Resp.sat [2]] = .ok [[pA], [pB]] := by
  simp only [solve, solveAux, exposureStep, pyInt_half_two]
  norm_num
  decide

/-- Witness for C3: limit 1/2 over a requested batch of 2; `pA` appears in
exactly `floor(1/2 * 2) = 1` of the two lineups and is excluded from the
second one. -/
theorem exposure_invariant_witness :
    (occCount 1 [[pA], [pB]] : ℤ) ≤ ⌊(1 : ℚ) / 2 * ((2 : ℕ) : ℚ)⌋ ∧
    ∀ j (hj : j < ([[pA], [pB]] : List (List Player)).length),
      ⌊(1 : ℚ) / 2 * ((2 : ℕ) : ℚ)⌋ ≤
          (occCount 1 (([[pA], [pB]] : List (List Player)).take j) : ℤ) →
      (([[pA], [pB]] : List (List Player)).get ⟨j, hj⟩).any
        (fun p => p.id == 1) = false :=
  exposure_invariant [pA, pB] rulesAB [] [(1, (1 : ℚ) / 2)] 0 2
    [Resp.sat [1], Resp.sat [2]] [[pA], [pB]] 1 ((1 : ℚ) / 2) (by simp)
    (by norm_num) (by decide) solveC3run

/-! ## Claim C6: non-OPTIMAL/FEASIBLE statuses truncate the batch -/

theorem exposureStep_wf_ok (num : ℕ) (usage : ℕ → ℕ) (vids : List ℕ) :
    ∀ (limits : List (ℕ × ℚ)) (cons : List Con),
    (∀ e ∈ limits, vids.contains e.1 = true) →
    ∃ cons1, exposureStep num usage vids limits cons = .ok cons1 := by
  intro limits
  induction limits with
  | nil => intro cons _; exact ⟨cons, by rw [exposureStep]⟩
  | cons e rest ih =>
    intro cons hwf
    rw [exposureStep]
    by_cases htrig : pyInt (e.2 * (num : ℚ)) ≤ (usage e.1 : ℤ)
    · rw [if_pos htrig, if_pos (hwf e (List.mem_cons_self _ _))]
      exact ih _ (fun x hx => hwf x (List.mem_cons_of_mem _ hx))
    · rw [if_neg htrig]
      exact ih _ (fun x hx => hwf x (List.mem_cons_of_mem _ hx))

theorem solveAux_wf_ok (players : List Player) (rs md : ℕ)
    (limits : List (ℕ × ℚ)) (num : ℕ)
    (hwf : ∀ e ∈ limits, (varIds players).contains e.1 = true) :
    ∀ (oracle : List Resp) (cons : List Con) (usage : ℕ → ℕ),
    ∃ out, solveAux players rs md limits num oracle cons usage = .ok out ∧
      out.length ≤ oracle.length := by
  intro oracle
  induction oracle with
  | nil => intro cons usage; exact ⟨[], by rw [solveAux], by simp⟩
  | cons r rest ih =>
    intro cons usage
    obtain ⟨cons1, hex⟩ := exposureStep_wf_ok num usage (varIds players) limits cons hwf
    cases r with
    | fail =>
      refine ⟨[], ?_, by simp⟩
      simp only [solveAux, hex]
    | sat sel =>
      by_cases hall : cons1.all (conSat sel) = true
      · obtain ⟨out', hrec, hlen⟩ := ih
          (cons1 ++ [divCon rs md (extract players sel)])
          (bumpUsage (extract players sel) usage)
        refine ⟨extract players sel :: out', ?_, by simpa using hlen⟩
        simp only [solveAux, hex]
        rw [if_pos hall, hrec]
      · refine ⟨[], ?_, by simp⟩
        simp only [solveAux, hex]
        rw [if_neg hall]

theorem solveAux_fail_trunc (players : List Player) (rs md : ℕ)
    (limits : List (ℕ × ℚ)) (num : ℕ)
    (hwf : ∀ e ∈ limits, (varIds players).contains e.1 = true) :
    ∀ (pre post : List Resp) (cons : List Con) (usage : ℕ → ℕ),
    solveAux players rs md limits num (pre ++ Resp.fail :: post) cons usage =
      solveAux players rs md limits num pre cons usage := by
  intro pre
  induction pre with
  | nil =>
    intro post cons usage
    obtain ⟨cons1, hex⟩ := exposureStep_wf_ok num usage (varIds players) limits cons hwf
    rw [List.nil_append]
    simp only [solveAux, hex]
  | cons r rest ih =>
    intro post cons usage
    obtain ⟨cons1, hex⟩ := exposureStep_wf_ok num usage (varIds players) limits cons hwf
    cases r with
    | fail => simp only [List.cons_append, solveAux, hex]
    | sat sel =>
      simp only [List.cons_append, solveAux, hex]
      by_cases hall : cons1.all (conSat sel) = true
      · rw [if_pos hall, if_pos hall]
        simp only [List.append_eq]
        rw [ih]
      · rw [if_neg hall, if_neg hall]

/-- Claim C6: when a solver iteration reports any status other than
OPTIMAL/FEASIBLE, the batch loop stops and the call returns exactly the
lineups of the prior iterations — no exception for partial results, and
the batch may be shorter than requested.  (`hwf`: every configured
exposure id has a decision variable; the pathological unknown-id case is
claim C10's `KeyError`.) -/
theorem solver_failure_truncates (players : List Player) (rules : Rules)
    (stacking : List (String × List String)) (limits : List (ℕ × ℚ))
    (md num : ℕ) (pre post : List Resp)
    (hwf : ∀ e ∈ limits, (varIds players).contains e.1 = true) :
    solve players rules stacking limits md num (pre ++ Resp.fail :: post) =
      solve players rules stacking limits md num pre ∧
    ∃ out, solve players rules stacking limits md num pre = .ok out ∧
      out.length ≤ pre.length := by
  constructor
  · rw [solve, solve,
      solveAux_fail_trunc players rules.roster_size md limits num hwf]
  · obtain ⟨out, hok, hlen⟩ := solveAux_wf_ok players rules.roster_size md
      limits num hwf pre (buildModel players rules stacking) (fun _ => 0)
    exact ⟨out, hok, hlen⟩

/-- Witness for C6: a failure after one accepted lineup truncates the
batch to that single lineup. -/
theorem solver_failure_truncates_witness :
    solve [pA, pB] rulesAB [] [] 0 2 ([Resp.sat [1]] ++ Resp.fail :: []) =
      solve [pA, pB] rulesAB [] [] 0 2 [Resp.sat [1]] ∧
    ∃ out, solve [pA, pB] rulesAB [] [] 0 2 [Resp.sat [1]] = .ok out ∧
      out.length ≤ [Resp.sat [1]].length :=
  solver_failure_truncates [pA, pB] rulesAB [] [] 0 2 [Resp.sat [1]] []
    (by simp)

/-! ## Claim C10: exposure limit for an id absent from the pool -/

theorem exposureStep_error_unknown {num : ℕ} {usage : ℕ → ℕ}
    {vids : List ℕ} {pid : ℕ} {frac : ℚ} :
    ∀ {A B : List (ℕ × ℚ)} (cons : List Con),
    vids.contains pid = false →
    pyInt (frac * (num : ℚ)) ≤ (usage pid : ℤ) →
    exposureStep num usage vids (A ++ (pid, frac) :: B) cons = .error () := by
  intro A
  induction A with
  | nil =>
    intro B cons hnc htrig
    rw [List.nil_append, exposureStep, if_pos htrig, if_neg (by rw [hnc]; simp)]
  | cons e A ih =>
    intro B cons hnc htrig
    rw [List.cons_append, exposureStep]
    by_cases htrig' : pyInt (e.2 * (num : ℚ)) ≤ (usage e.1 : ℤ)
    · rw [if_pos htrig']
      by_cases hc : vids.contains e.1 = true
      · rw [if_pos hc]
        exact ih _ hnc htrig
      · rw [if_neg hc]
    · rw [if_neg htrig']
      exact ih _ hnc htrig

theorem exposureStep_skip_unknown {num : ℕ} {usage : ℕ → ℕ}
    {vids : List ℕ} {pid : ℕ} {frac : ℚ} :
    ∀ {A B : List (ℕ × ℚ)} (cons : List Con),
    usage pid = 0 → 1 ≤ pyInt (frac * (num : ℚ)) →
    exposureStep num usage vids (A ++ (pid, frac) :: B) cons =
      exposureStep num usage vids (A ++ B) cons := by
  intro A
  induction A with
  | nil =>
    intro B cons hu h1
    rw [List.nil_append, List.nil_append, exposureStep,
      if_neg (by rw [hu]; push_cast; omega)]
  | cons e A ih =>
    intro B cons hu h1
    rw [List.cons_append, List.cons_append, exposureStep, exposureStep]
    by_cases htrig' : pyInt (e.2 * (num : ℚ)) ≤ (usage e.1 : ℤ)
    · rw [if_pos htrig', if_pos htrig']
      by_cases hc : vids.contains e.1 = true
      · rw [if_pos hc, if_pos hc, ih _ hu h1]
      · rw [if_neg hc, if_neg hc]
    · rw [if_neg htrig', if_neg htrig', ih _ hu h1]

theorem bump_unknown {players : List Player} {sel : List ℕ} {pid : ℕ}
    (hunknown : pid ∉ players.map Player.id) (usage : ℕ → ℕ)
    (hu : usage pid = 0) :
    bumpUsage (extract players sel) usage pid = 0 := by
  have hcnt : (extract players sel).countP (fun p => p.id == pid) = 0 := by
    rw [List.countP_eq_zero]
    intro p hp hbeq
    exact hunknown (List.mem_map.2 ⟨p, (mem_extract.1 hp).1, beq_iff_eq.1 hbeq⟩)
  show usage pid + _ = 0
  rw [hu, hcnt]

theorem solveAux_skip_unknown (players : List Player) (rs md num pid : ℕ)
    (frac : ℚ) (A B : List (ℕ × ℚ))
    (hunknown : pid ∉ players.map Player.id)
    (h1 : 1 ≤ pyInt (frac * (num : ℚ))) :
    ∀ (oracle : List Resp) (cons : List Con) (usage : ℕ → ℕ),
    usage pid = 0 →
    solveAux players rs md (A ++ (pid, frac) :: B) num oracle cons usage =
      solveAux players rs md (A ++ B) num oracle cons usage := by
  intro oracle
  induction oracle with
  | nil => intro cons usage hu; rw [solveAux, solveAux]
  | cons r rest ih =>
    intro cons usage hu
    cases r with
    | fail =>
      simp only [solveAux]
      rw [exposureStep_skip_unknown _ hu h1]
    | sat sel =>
      simp only [solveAux]
      rw [exposureStep_skip_unknown _ hu h1]
      cases hex : exposureStep num usage (varIds players) (A ++ B) cons with
      | error e => simp only [hex]
      | ok cons1 =>
        simp only [hex]
        by_cases hall : cons1.all (conSat sel) = true
        · rw [if_pos hall, if_pos hall,
            ih _ _ (bump_unknown hunknown usage hu)]
        · rw [if_neg hall, if_neg hall]

/-- Claim C10: an `exposure_limits` entry whose player id has no decision
variable raises an unhandled `KeyError` as soon as its allowance
`int(max_fraction * num_lineups)` is 0 (the ban triggers on the very
first iteration, before any solver call), and is silently ignored for the
whole batch as soon as the allowance is at least 1 (its usage count stays
0 forever, so the ban never triggers). -/
theorem unknown_exposure_id (players : List Player) (rules : Rules)
    (stacking : List (String × List String)) (md num : ℕ)
    (oracle : List Resp) (pid : ℕ) (frac : ℚ) (A B : List (ℕ × ℚ))
    (hunknown : pid ∉ players.map Player.id) :
    (pyInt (frac * (num : ℚ)) = 0 → oracle ≠ [] →
      solve players rules stacking (A ++ (pid, frac) :: B) md num oracle =
        .error ()) ∧
    (1 ≤ pyInt (frac * (num : ℚ)) →
      solve players rules stacking (A ++ (pid, frac) :: B) md num oracle =
        solve players rules stacking (A ++ B) md num oracle) := by
  have hnvar : pid ∉ varIds players := fun hm => hunknown (mem_varIds.1 hm)
  have hnc : (varIds players).contains pid = false := by
    simpa using hnvar
  constructor
  · intro hz horacle
    cases oracle with
    | nil => exact absurd rfl horacle
    | cons r rest =>
      have hstep : exposureStep num (fun _ => 0) (varIds players)
          (A ++ (pid, frac) :: B) (buildModel players rules stacking) =
          .error () :=
        exposureStep_error_unknown _ hnc (by rw [hz]; simp)
      rw [solve]
      simp only [solveAux, hstep]
  · intro h1
    rw [solve, solve,
      solveAux_skip_unknown players rules.roster_size md num pid frac A B
        hunknown h1 oracle _ _ rfl]

theorem pyInt_zero_two : pyInt ((0 : ℚ) * ((2 : ℕ) : ℚ)) = 0 := by
  rw [pyInt, if_pos (by norm_num)]
  norm_num

theorem pyInt_one_two : pyInt ((1 : ℚ) * ((2 : ℕ) : ℚ)) = 2 := by
  rw [pyInt, if_pos (by norm_num)]
  norm_num

/-- Witness for C10: id 99 is not in the pool; with fraction 0 the call
errors, with fraction 1 the entry is a no-op. -/
theorem unknown_exposure_id_witness :
    solve [pA, pB] rulesAB [] [(99, (0 : ℚ))] 0 2
      [Resp.sat [1], Resp.sat [2]] = .error () ∧
    solve [pA, pB] rulesAB [] [(99, (1 : ℚ))] 0 2
      [Resp.sat [1], Resp.sat [2]] =
      solve [pA, pB] rulesAB [] [] 0 2 [Resp.sat [1], Resp.sat [2]] :=
  ⟨(unknown_exposure_id [pA, pB] rulesAB [] 0 2 [Resp.sat [1], Resp.sat [2]]
      99 0 [] [] (by decide)).1 pyInt_zero_two (by simp),
   (unknown_exposure_id [pA, pB] rulesAB [] 0 2 [Resp.sat [1], Resp.sat [2]]
      99 1 [] [] (by decide)).2 (by rw [pyInt_one_two]; omega)⟩

/-! ## Claim C5: no iteration-count validation in the simulator -/

/-- A one-man simulator pool. -/
def sp1 : SimPlayer := ⟨1, 10, none⟩

/-- Claim C5 is false as stated: constructing the simulator with
`num_iterations = 0` succeeds (the constructor validates nothing — there
is no `InvalidIterationCountError` anywhere in the code), and the
subsequent run fails only deep inside the per-lineup percentile reduction
with numpy's empty-data error, not fast and not before computation
begins. -/
theorem iteration_count_counterexample :
    simInit [sp1] 0 = ⟨[sp1], 0⟩ ∧
    runSimulation (simInit [sp1] 0) [[sp1]] (fun _ _ => 0) =
      .error .emptyPercentile := by
  constructor
  · rfl
  · rfl

/-- Claim C5 amended: the simulator performs no iteration-count
validation.  With `iterations = 0` and at least one lineup, the call
proceeds into the scoring loop and dies at the first per-lineup
`np.percentile` over an empty score vector; with negative iterations it
dies inside `np.random.normal` on a negative dimension.  Neither failure
is an `InvalidIterationCountError` (no such error exists in the code). -/
theorem no_iteration_validation (players : List SimPlayer)
    (lineups : List (List SimPlayer)) (outcomes : ℕ → ℕ → ℚ) :
    (lineups ≠ [] →
      runSimulation (simInit players 0) lineups outcomes =
        .error .emptyPercentile) ∧
    ∀ n : ℤ, n < 0 →
      runSimulation (simInit players n) lineups outcomes =
        .error .negativeDim := by
  constructor
  · intro hne
    cases lineups with
    | nil => exact absurd rfl hne
    | cons lu rest =>
      simp only [runSimulation, simInit]
      rw [if_neg (by omega)]
      rw [if_neg (by simp)]
      simp only [List.enum_cons, runAll, lineupResult, lineupScores,
        Int.toNat_zero, List.range_zero, List.map_nil, npPercentile, if_pos]
  · intro n hn
    simp only [runSimulation, simInit]
    rw [if_pos hn]

/-- Witness for the amended C5 at concrete inputs. -/
theorem no_iteration_validation_witness :
    runSimulation (simInit [sp1] 0) [[sp1]] (fun _ _ => 3) =
      .error .emptyPercentile ∧
    runSimulation (simInit [sp1] (-2)) [[sp1]] (fun _ _ => 3) =
      .error .negativeDim :=
  ⟨(no_iteration_validation [sp1] [[sp1]] (fun _ _ => 3)).1 (by simp),
   (no_iteration_validation [sp1] [[sp1]] (fun _ _ => 3)).2 (-2) (by omega)⟩

/-! ## Claim C1: unknown player ids in a lineup -/

/-- A player id absent from the simulator pool. -/
def spX : SimPlayer := ⟨99, 5, none⟩

theorem any_filter_known (players : List SimPlayer) (j : ℕ) :
    ∀ l : List SimPlayer,
    (l.filter (fun p => (playerIndex players p.id).isSome)).any
        (fun p => playerIndex players p.id == some j) =
      l.any (fun p => playerIndex players p.id == some j) := by
  intro l
  induction l with
  | nil => rfl
  | cons a l ih =>
    by_cases hq : (playerIndex players a.id).isSome = true
    · rw [List.filter_cons, if_pos hq, List.any_cons, List.any_cons, ih]
    · rw [List.filter_cons, if_neg hq, List.any_cons, ih]
      have hpred : (playerIndex players a.id == some j) = false := by
        cases hidx : playerIndex players a.id with
        | none => rfl
        | some k => exact absurd (by rw [hidx]; rfl) hq
      rw [hpred]
      simp

theorem lineupRow_filter_known (players : List SimPlayer)
    (lu : List SimPlayer) (j : ℕ) :
    lineupRow players
        (lu.filter (fun p => (playerIndex players p.id).isSome)) j =
      lineupRow players lu j := by
  rw [lineupRow, lineupRow, any_filter_known]

theorem lineupScores_filter_known (players : List SimPlayer)
    (outcomes : ℕ → ℕ → ℚ) (iters : ℕ) (lu : List SimPlayer) :
    lineupScores players outcomes iters
        (lu.filter (fun p => (playerIndex players p.id).isSome)) =
      lineupScores players outcomes iters lu := by
  rw [lineupScores, lineupScores]
  apply List.map_congr_left
  intro t _
  rw [lineupScore, lineupScore]
  congr 1
  apply List.map_congr_left
  intro j _
  rw [lineupRow_filter_known]

theorem lineupResult_filter_known (players : List SimPlayer)
    (outcomes : ℕ → ℕ → ℚ) (iters i : ℕ) (lu : List SimPlayer) :
    lineupResult players outcomes iters i
        (lu.filter (fun p => (playerIndex players p.id).isSome)) =
      lineupResult players outcomes iters i lu := by
  simp only [lineupResult, lineupScores_filter_known]

theorem runAll_map_filter (players : List SimPlayer)
    (outcomes : ℕ → ℕ → ℚ) (iters : ℕ) :
    ∀ es : List (ℕ × List SimPlayer),
    runAll players outcomes iters
        (es.map (Prod.map id
          (fun lu => lu.filter (fun p => (playerIndex players p.id).isSome)))) =
      runAll players outcomes iters es := by
  intro es
  induction es with
  | nil => rfl
  | cons e rest ih =>
    rw [List.map_cons, runAll, runAll]
    simp only [Prod.map_fst, Prod.map_snd, id_eq]
    rw [lineupResult_filter_known, ih]

/-- Claim C1 amended: a lineup player whose id is absent from the
simulator pool is silently skipped when the incidence matrix is built
(`player_map.get` returns `None` and the row update is guarded by
`if idx is not None`); the run succeeds and behaves exactly as if the
unknown players were not in the lineup, contributing 0 to every simulated
score.  No `UnknownPlayerError` exists in the code. -/
theorem unknown_players_ignored (sim : Simulator)
    (lineups : List (List SimPlayer)) (outcomes : ℕ → ℕ → ℚ) :
    runSimulation sim lineups outcomes =
      runSimulation sim
        (lineups.map (fun lu =>
          lu.filter (fun p => (playerIndex sim.players p.id).isSome)))
        outcomes := by
  rw [runSimulation, runSimulation]
  by_cases hneg : sim.num_iterations < 0
  · rw [if_pos hneg, if_pos hneg]
  · rw [if_neg hneg, if_neg hneg]
    simp only [List.map_eq_nil_iff]
    by_cases hguard : lineups = [] ∧ 1 ≤ sim.num_iterations.toNat
    · rw [if_pos hguard, if_pos hguard]
    · rw [if_neg hguard, if_neg hguard]
      rw [List.enum_map, runAll_map_filter]

/-- Claim C1 is false as stated: a lineup containing the unknown id 99
produces a normal `.ok` result (no error of any kind), with the unknown
player contributing nothing to the score. -/
theorem unknown_player_counterexample :
    playerIndex [sp1] 99 = none ∧
    runSimulation (simInit [sp1] 1) [[sp1, spX]] (fun _ _ => 10) =
      .ok [⟨0, 10, 10, 10, 0⟩] := by
  constructor
  · rfl
  · simp only [runSimulation, simInit]
    rw [if_neg (by omega), if_neg (by simp)]
    simp only [List.enum_cons, List.enum_nil, runAll, lineupResult,
      lineupScores, lineupScore, lineupRow, playerIndex, npPercentile,
      percentileLinear, interpAt, qMean, nth]
    norm_num [List.range_succ, List.insertionSort, List.orderedInsert,
      List.filter, List.enum, List.enumFrom, Int.toNat_one, lineupScore,
      lineupRow, playerIndex, qMean, nth]

/-! ## Claim C8: the win-probability threshold -/

theorem sum_indicator_eq_countP (xs : List ℚ) :
    (xs.map (fun s => if 150 < s then (1 : ℚ) else 0)).sum =
      (xs.countP (fun s => decide (150 < s)) : ℚ) := by
  induction xs with
  | nil => simp
  | cons x xs ih =>
    rw [List.map_cons, List.sum_cons, List.countP_cons, ih]
    by_cases hx : (150 : ℚ) < x
    · rw [if_pos hx, if_pos (by simpa using hx)]
      push_cast
      ring
    · rw [if_neg hx, if_neg (by simpa using hx)]
      push_cast
      ring

theorem runAll_ok_spec (players : List SimPlayer) (outcomes : ℕ → ℕ → ℚ)
    (iters : ℕ) :
    ∀ (es : List (ℕ × List SimPlayer)) (rs : List SimResult),
    runAll players outcomes iters es = .ok rs →
    rs.length = es.length ∧
    ∀ (i : ℕ) (e : ℕ × List SimPlayer) (r : SimResult),
      es[i]? = some e → rs[i]? = some r →
      lineupResult players outcomes iters e.1 e.2 = .ok r := by
  intro es
  induction es with
  | nil =>
    intro rs h
    rw [runAll] at h
    cases h
    refine ⟨rfl, ?_⟩
    intro i e r he
    exact absurd he (by simp)
  | cons e0 rest ih =>
    intro rs h
    rw [runAll] at h
    cases hr0 : lineupResult players outcomes iters e0.1 e0.2 with
    | error err =>
      simp only [hr0] at h
      exact absurd h (by simp)
    | ok r0 =>
      simp only [hr0] at h
      cases hrs' : runAll players outcomes iters rest with
      | error err =>
        simp only [hrs'] at h
        exact absurd h (by simp)
      | ok rs' =>
        simp only [hrs'] at h
        cases h
        obtain ⟨hlen, hspec⟩ := ih rs' hrs'
        refine ⟨by simp [hlen], ?_⟩
        intro i e r he hr
        match i with
        | 0 =>
          rw [List.getElem?_cons_zero] at he hr
          cases he
          cases hr
          exact hr0
        | i + 1 =>
          rw [List.getElem?_cons_succ] at he hr
          exact hspec i e r he hr

/-- Claim C8: every returned `win_prob` is the fraction of trials whose
score strictly exceeds the single hard-coded scalar threshold 150 — the
same constant for every lineup of the call, depending only on that
lineup's own scores (never on the other lineups'). -/
theorem win_prob_fixed_threshold (sim : Simulator)
    (lineups : List (List SimPlayer)) (outcomes : ℕ → ℕ → ℚ)
    (results : List SimResult)
    (h : runSimulation sim lineups outcomes = .ok results) :
    results.length = lineups.length ∧
    ∀ (i : ℕ) (lu : List SimPlayer) (r : SimResult),
      lineups[i]? = some lu → results[i]? = some r →
      r.win_prob =
        ((lineupScores sim.players outcomes sim.num_iterations.toNat lu).countP
            (fun s => decide (150 < s)) : ℚ) /
          ((lineupScores sim.players outcomes sim.num_iterations.toNat lu).length : ℚ) := by
  simp only [runSimulation] at h
  split at h
  · exact absurd h (by simp)
  · split at h
    · exact absurd h (by simp)
    · obtain ⟨hlen, hspec⟩ := runAll_ok_spec sim.players outcomes
        sim.num_iterations.toNat lineups.enum results h
      refine ⟨by rw [hlen, List.enum_length], ?_⟩
      intro i lu r hlu hr
      have he : lineups.enum[i]? = some (i, lu) := by
        rw [List.getElem?_enum, hlu]
        rfl
      have hres := hspec i (i, lu) r he hr
      rw [lineupResult] at hres
      split at hres
      · exact absurd hres (by simp)
      · split at hres
        · exact absurd hres (by simp)
        · cases hres
          show qMean _ = _
          rw [qMean, sum_indicator_eq_countP, List.length_map]

/-- The concrete run used by the C8 witness. -/
theorem winC8run :
    runSimulation (simInit [sp1] 1) [[sp1]] (fun _ _ => 200) =
      .ok [⟨0, 200, 200, 200, 1⟩] := by
  simp only [runSimulation, simInit]
  rw [if_neg (by omega), if_neg (by simp)]
  simp only [List.enum_cons, List.enum_nil, runAll, lineupResult,
    lineupScores, lineupScore, lineupRow, playerIndex, npPercentile,
    percentileLinear, interpAt, qMean, nth]
  norm_num [List.range_succ, List.insertionSort, List.orderedInsert,
    List.filter, List.enum, List.enumFrom, Int.toNat_one, lineupScore,
    lineupRow, playerIndex, qMean, nth]

/-- Witness for C8 at a concrete run: one trial scoring 200 gives
`win_prob = 1 = 1/1`. -/
theorem win_prob_fixed_threshold_witness :
    ([⟨0, 200, 200, 200, 1⟩] : List SimResult).length =
      ([[sp1]] : List (List SimPlayer)).length ∧
    ∀ (i : ℕ) (lu : List SimPlayer) (r : SimResult),
      ([[sp1]] : List (List SimPlayer))[i]? = some lu →
      ([⟨0, 200, 200, 200, 1⟩] : List SimResult)[i]? = some r →
      r.win_prob =
        ((lineupScores (simInit [sp1] 1).players (fun _ _ => 200)
            (simInit [sp1] 1).num_iterations.toNat lu).countP
            (fun s => decide (150 < s)) : ℚ) /
          ((lineupScores (simInit [sp1] 1).players (fun _ _ => 200)
            (simInit [sp1] 1).num_iterations.toNat lu).length : ℚ) :=
  win_prob_fixed_threshold (simInit [sp1] 1) [[sp1]] (fun _ _ => 200)
    [⟨0, 200, 200, 200, 1⟩] winC8run

/-! ## Claim C7: percentile ordering -/

theorem nth_eq_get {s : List ℚ} {i : ℕ} (h : i < s.length) :
    nth s i = s.get ⟨i, h⟩ :=
  List.getD_eq_get s 0 h

theorem nth_sorted_mono {s : List ℚ} (hs : s.Sorted (· ≤ ·)) {i j : ℕ}
    (hij : i ≤ j) (hj : j < s.length) : nth s i ≤ nth s j := by
  have hi : i < s.length := lt_of_le_of_lt hij hj
  rw [nth_eq_get hi, nth_eq_get hj]
  exact hs.rel_get_of_le (show (⟨i, hi⟩ : Fin s.length) ≤ ⟨j, hj⟩ from hij)

theorem interpAt_eq (s : List ℚ) (h : ℚ) :
    interpAt s h = nth s (⌊h⌋).toNat +
      (h - ((⌊h⌋).toNat : ℚ)) *
        (nth s (min ((⌊h⌋).toNat + 1) (s.length - 1)) - nth s (⌊h⌋).toNat) :=
  rfl

theorem floorNat_le {q : ℚ} (h : 0 ≤ q) : ((⌊q⌋.toNat : ℚ)) ≤ q := by
  have h1 : (⌊q⌋.toNat : ℤ) = ⌊q⌋ := Int.toNat_of_nonneg (Int.floor_nonneg.2 h)
  have h2 : ((⌊q⌋.toNat : ℤ) : ℚ) ≤ q := by
    rw [h1]
    exact Int.floor_le q
  exact_mod_cast h2

theorem lt_floorNat_add_one {q : ℚ} (h : 0 ≤ q) :
    q < (⌊q⌋.toNat : ℚ) + 1 := by
  have h1 : (⌊q⌋.toNat : ℤ) = ⌊q⌋ := Int.toNat_of_nonneg (Int.floor_nonneg.2 h)
  have h2 : q < ((⌊q⌋.toNat : ℤ) : ℚ) + 1 := by
    rw [h1]
    exact Int.lt_floor_add_one q
  exact_mod_cast h2

theorem floorNat_le_of_le {q : ℚ} {n : ℕ} (hn : 1 ≤ n)
    (h : q ≤ (n : ℚ) - 1) : ⌊q⌋.toNat ≤ n - 1 := by
  have h1 : ((n : ℚ) - 1) = (((n : ℤ) - 1 : ℤ) : ℚ) := by
    push_cast
    ring
  have h2 : ⌊q⌋ ≤ (n : ℤ) - 1 := by
    have h3 := Int.floor_le_floor h
    rwa [h1, Int.floor_intCast] at h3
  omega

theorem floorNat_mono {q1 q2 : ℚ} (h0 : 0 ≤ q1) (h12 : q1 ≤ q2) :
    ⌊q1⌋.toNat ≤ ⌊q2⌋.toNat := by
  have := Int.floor_le_floor h12
  omega

/-- Monotonicity of the linear-interpolation kernel in the virtual
index, over a sorted sample. -/
theorem interpAt_mono {s : List ℚ} (hs : s.Sorted (· ≤ ·))
    (hn : 1 ≤ s.length) {h1 h2 : ℚ} (h0 : 0 ≤ h1) (h12 : h1 ≤ h2)
    (hub : h2 ≤ (s.length : ℚ) - 1) :
    interpAt s h1 ≤ interpAt s h2 := by
  have h02 : (0 : ℚ) ≤ h2 := le_trans h0 h12
  have h1ub : h1 ≤ (s.length : ℚ) - 1 := le_trans h12 hub
  have hk1ub : ⌊h1⌋.toNat ≤ s.length - 1 := floorNat_le_of_le hn h1ub
  have hk2ub : ⌊h2⌋.toNat ≤ s.length - 1 := floorNat_le_of_le hn hub
  have hk12 : ⌊h1⌋.toNat ≤ ⌊h2⌋.toNat := floorNat_mono h0 h12
  have hlt1 : ⌊h1⌋.toNat < s.length := by omega
  have hlt2 : ⌊h2⌋.toNat < s.length := by omega
  have hmin1 : min (⌊h1⌋.toNat + 1) (s.length - 1) < s.length := by omega
  have hmin2 : min (⌊h2⌋.toNat + 1) (s.length - 1) < s.length := by omega
  have hg1 : 0 ≤ h1 - (⌊h1⌋.toNat : ℚ) := by
    have := floorNat_le h0
    linarith
  have hg2 : 0 ≤ h2 - (⌊h2⌋.toNat : ℚ) := by
    have := floorNat_le h02
    linarith
  have hd1 : nth s (⌊h1⌋.toNat) ≤ nth s (min (⌊h1⌋.toNat + 1) (s.length - 1)) :=
    nth_sorted_mono hs (by omega) hmin1
  have hd2 : nth s (⌊h2⌋.toNat) ≤ nth s (min (⌊h2⌋.toNat + 1) (s.length - 1)) :=
    nth_sorted_mono hs (by omega) hmin2
  rcases Nat.lt_or_ge (⌊h1⌋.toNat) (⌊h2⌋.toNat) with hkk | hkk
  · -- different segments: interp h1 ≤ hi1 ≤ lo2 ≤ interp h2
    have hch : min (⌊h1⌋.toNat + 1) (s.length - 1) ≤ ⌊h2⌋.toNat := by omega
    have hmid : nth s (min (⌊h1⌋.toNat + 1) (s.length - 1)) ≤
        nth s (⌊h2⌋.toNat) := nth_sorted_mono hs hch hlt2
    have hup : interpAt s h1 ≤ nth s (min (⌊h1⌋.toNat + 1) (s.length - 1)) := by
      rw [interpAt_eq]
      have hglt : h1 - (⌊h1⌋.toNat : ℚ) < 1 := by
        have := lt_floorNat_add_one h0
        linarith
      nlinarith [hd1, hg1, hglt]
    have hlow : nth s (⌊h2⌋.toNat) ≤ interpAt s h2 := by
      rw [interpAt_eq]
      nlinarith [hd2, hg2]
    linarith
  · -- same segment (k1 = k2): compare the interpolation weights
    have hkeq : ⌊h1⌋.toNat = ⌊h2⌋.toNat := le_antisymm hk12 hkk
    rw [interpAt_eq, interpAt_eq, hkeq]
    have hgle : h1 - (⌊h2⌋.toNat : ℚ) ≤ h2 - (⌊h2⌋.toNat : ℚ) := by linarith
    have hd2' : 0 ≤ nth s (min (⌊h2⌋.toNat + 1) (s.length - 1)) -
        nth s (⌊h2⌋.toNat) := by linarith
    nlinarith [hgle, hd2']

/-- Monotonicity of `np.percentile` in the percentile argument. -/
theorem percentileLinear_mono {xs : List ℚ} (hne : xs ≠ [])
    {q1 q2 : ℚ} (h0 : 0 ≤ q1) (h12 : q1 ≤ q2) (h100 : q2 ≤ 100) :
    percentileLinear xs q1 ≤ percentileLinear xs q2 := by
  rw [percentileLinear, percentileLinear]
  have hs : (xs.insertionSort (· ≤ ·)).Sorted (· ≤ ·) :=
    List.sorted_insertionSort _ _
  have hlen : (xs.insertionSort (· ≤ ·)).length = xs.length :=
    List.length_insertionSort _ _
  have hn : 1 ≤ (xs.insertionSort (· ≤ ·)).length := by
    rw [hlen]
    exact List.length_pos.2 hne
  have hnn : (0 : ℚ) ≤ (xs.length : ℚ) - 1 := by
    have : (1 : ℚ) ≤ (xs.length : ℚ) := by
      exact_mod_cast hlen ▸ hn
    linarith
  apply interpAt_mono hs hn
  · exact mul_nonneg (div_nonneg h0 (by norm_num)) hnn
  · have hq : q1 / 100 ≤ q2 / 100 := by linarith
    exact mul_le_mul_of_nonneg_right hq hnn
  · rw [hlen]
    have hq : q2 / 100 ≤ 1 := by linarith
    calc q2 / 100 * ((xs.length : ℚ) - 1) ≤ 1 * ((xs.length : ℚ) - 1) :=
          mul_le_mul_of_nonneg_right hq hnn
      _ = (xs.length : ℚ) - 1 := one_mul _

theorem lineupResult_fields {players : List SimPlayer}
    {outcomes : ℕ → ℕ → ℚ} {iters i : ℕ} {lu : List SimPlayer}
    {r : SimResult}
    (h : lineupResult players outcomes iters i lu = .ok r) :
    lineupScores players outcomes iters lu ≠ [] ∧
    r.ceiling = percentileLinear (lineupScores players outcomes iters lu) 95 ∧
    r.floor = percentileLinear (lineupScores players outcomes iters lu) 5 := by
  rw [lineupResult] at h
  by_cases hemp : lineupScores players outcomes iters lu = []
  · simp only [npPercentile, if_pos hemp] at h
    exact absurd h (by simp)
  · simp only [npPercentile, if_neg hemp] at h
    cases h
    exact ⟨hemp, rfl, rfl⟩

/-- Claim C7 amended: for every `SimulationResult` actually returned,
`floor ≤ ceiling` (the 5th percentile never exceeds the 95th); the claimed
two-sided bound `floor ≤ avg_score ≤ ceiling` does NOT hold for every
per-trial score vector — the mean of a heavily skewed sample can exceed
its 95th percentile (see the counterexample). -/
theorem floor_le_ceiling (sim : Simulator) (lineups : List (List SimPlayer))
    (outcomes : ℕ → ℕ → ℚ) (results : List SimResult)
    (h : runSimulation sim lineups outcomes = .ok results) :
    ∀ r ∈ results, r.floor ≤ r.ceiling := by
  intro r hr
  simp only [runSimulation] at h
  split at h
  · exact absurd h (by simp)
  · split at h
    · exact absurd h (by simp)
    · obtain ⟨hlen, hspec⟩ := runAll_ok_spec sim.players outcomes
        sim.num_iterations.toNat lineups.enum results h
      obtain ⟨i, hi⟩ := List.mem_iff_getElem?.1 hr
      obtain ⟨hrlt, -⟩ := List.getElem?_eq_some_iff.1 hi
      have hilt : i < lineups.enum.length := by
        rw [← hlen]
        exact hrlt
      have he : lineups.enum[i]? = some lineups.enum[i] :=
        List.getElem?_eq_getElem hilt
      have hres := hspec i lineups.enum[i] r he hi
      obtain ⟨hne, hc, hf⟩ := lineupResult_fields hres
      rw [hc, hf]
      exact percentileLinear_mono hne (by norm_num) (by norm_num) (by norm_num)

/-- Witness for the amended C7 at a concrete run. -/
theorem floor_le_ceiling_witness :
    (⟨0, 200, 200, 200, 1⟩ : SimResult).floor ≤
      (⟨0, 200, 200, 200, 1⟩ : SimResult).ceiling :=
  floor_le_ceiling (simInit [sp1] 1) [[sp1]] (fun _ _ => 200)
    [⟨0, 200, 200, 200, 1⟩] winC8run ⟨0, 200, 200, 200, 1⟩ (by simp)

/-- Claim C7 is false as stated: with 21 trials scoring 0 twenty times and
1000 once, the 5th and 95th percentiles are both 0 (the sorted sample is
flat through index 19) while the mean is 1000/21 > 0, so
`floor ≤ avg_score ≤ ceiling` fails on this returned SimulationResult. -/
theorem percentile_ordering_counterexample :
    runSimulation (simInit [sp1] 21) [[sp1]]
        (fun t _ => if t = 20 then 1000 else 0) =
      .ok [⟨0, 1000 / 21, 0, 0, 1 / 21⟩] ∧
    ¬ ((⟨0, 1000 / 21, 0, 0, 1 / 21⟩ : SimResult).floor ≤
          (⟨0, 1000 / 21, 0, 0, 1 / 21⟩ : SimResult).avg_score ∧
        (⟨0, 1000 / 21, 0, 0, 1 / 21⟩ : SimResult).avg_score ≤
          (⟨0, 1000 / 21, 0, 0, 1 / 21⟩ : SimResult).ceiling) := by
  constructor
  · simp only [runSimulation, simInit]
    rw [if_neg (by omega), if_neg (by simp)]
    simp only [List.enum_cons, List.enum_nil, runAll, lineupResult,
      lineupScores, lineupScore, lineupRow, playerIndex, npPercentile,
      percentileLinear, interpAt, qMean, nth]
    have ht : (21 : ℤ).toNat = 21 := rfl
    have ht19 : (19 : ℤ).toNat = 19 := rfl
    norm_num [ht, ht19, List.range_succ, List.insertionSort,
      List.orderedInsert, List.filter, List.enum, List.enumFrom,
      lineupScore, lineupRow, playerIndex, qMean, nth,
      List.getElem?_cons_zero, List.getElem?_cons_succ, Option.getD_some,
      Nat.min_def, List.getElem_cons_zero, List.getElem_cons_succ]
    simp
  · rintro ⟨h1, h2⟩
    norm_num at h2

end LuckyLines
